import Mathlib

/-!
Verification development for the scrapelib proxy fetcher core:
the proxy classifier (proxy_utils.infer_type), the backoff policy
(proxy_utils.get_exponential_backoff), the request executor
(proxy_request.ProxyRequest.submit), the staged fallback fetcher
(smart_fetch.SmartFetch.fetch / _format) and the race fetcher
(brute_fetch.BruteFetch.fetch), shallowly embedded from the Python source.

Python dictionaries that cross the executor/fetcher boundary are modelled by
an explicit universe of Python values (PyVal) so that dict truthiness and
dict iteration order (insertion order) are captured faithfully.  The network
side of one attempt is an oracle value (NetResponse) describing what the
wire would have delivered: a response, or one of the exception classes the
executor catches.  The race fetcher's worker pool is a small-step transition
system over an explicit state (queue, winner slot, worker phases), one step
per atomic block between asyncio suspension points.
-/

/-- A Python runtime value, restricted to the shapes that flow through the
fetchers: strings, ints, booleans, byte strings, None, and insertion-ordered
dicts with string keys. -/
inductive PyVal where
  | str (s : String)
  | int (n : Int)
  | pybool (b : Bool)
  | bytes (bs : List Nat)
  | pynone
  | dict (entries : List (String × PyVal))

/-- Python truthiness of a value, as used by `if result:` checks. -/
def pyTruthy : PyVal → Bool
  | .str s => !(s = "")
  | .int n => !(n = 0)
  | .pybool b => b
  | .bytes bs => !bs.isEmpty
  | .pynone => false
  | .dict es => !es.isEmpty

/-- Association-list lookup on dict entries (first match, as in a dict). -/
def lookupStr : List (String × PyVal) → String → Option PyVal
  | [], _ => none
  | (k, v) :: rest, key => if k = key then some v else lookupStr rest key

/-- `d[k]` access on a PyVal dict (none when absent or not a dict). -/
def pyLookup : PyVal → String → Option PyVal
  | .dict es, k => lookupStr es k
  | _, _ => none

/-- The keys of a PyVal dict in insertion order; iterating a Python dict
(e.g. by tuple-unpacking it) yields exactly this list. -/
def dictKeys : PyVal → List String
  | .dict es => es.map Prod.fst
  | _ => []

/-- HTTP methods, from proxy_utils.HTTPMethod. -/
inductive HTTPMethod where
  | GET
  | HEAD
  | POST
  | PUT
  | DELETE
deriving DecidableEq

/-- The method's name, as stored into result dicts. -/
def methodName : HTTPMethod → String
  | .GET => "GET"
  | .HEAD => "HEAD"
  | .POST => "POST"
  | .PUT => "PUT"
  | .DELETE => "DELETE"

/-- A method as a Python value inside a result dict. -/
def methodVal (m : HTTPMethod) : PyVal := .str (methodName m)

/-- Proxy transport families, from proxy_utils.ProxyType. -/
inductive ProxyType where
  | HTTP
  | SOCKS
deriving DecidableEq

/-- Characters str.strip() removes (ASCII whitespace). -/
def isSpaceChar (c : Char) : Bool :=
  c = ' ' || c = '\t' || c = '\n' || c = '\r' || c = '\x0c' || c = '\x0b'

/-- str.strip(): remove leading and trailing whitespace. -/
def pystrip (s : String) : String :=
  String.mk (((s.toList.dropWhile isSpaceChar).reverse.dropWhile
    isSpaceChar).reverse)

/-- str.lower() over the underlying characters. -/
def lowerStr (s : String) : String := String.mk (s.toList.map Char.toLower)

/-- Whether s starts with pre (str.startswith). -/
def startsWithStr (s pre : String) : Bool := pre.toList.isPrefixOf s.toList

/-- Whether pat occurs as a contiguous sublist of the text. -/
def containsList (pat : List Char) : List Char → Bool
  | [] => pat.isEmpty
  | c :: rest => pat.isPrefixOf (c :: rest) || containsList pat rest

/-- Python "pat in s" substring containment. -/
def containsStr (s pat : String) : Bool := containsList pat.toList s.toList

/-- The part of a netloc after its last at sign (netloc.rpartition of the
at sign, as urllib strips userinfo). -/
def afterLastAt (netloc : List Char) : List Char :=
  (netloc.reverse.takeWhile (fun c => !(c = '@'))).reverse

/-- Characters urllib.parse admits after the first character of a scheme. -/
def schemeChar (c : Char) : Bool := c.isAlphanum || c = '+' || c = '-' || c = '.'

/-- Split a character list at its first colon, returning the part before and
after; none when there is no colon. -/
def splitAtColon : List Char → Option (List Char × List Char)
  | [] => none
  | c :: cs =>
    if c = ':' then some ([], cs)
    else match splitAtColon cs with
      | some (pre, post) => some (c :: pre, post)
      | none => none

/-- urllib.parse's scheme validity test: nonempty, starts with an ASCII
letter, remaining characters alphanumeric or one of plus, minus, dot. -/
def validScheme : List Char → Bool
  | [] => false
  | c :: cs => c.isAlpha && cs.all schemeChar

/-- Split a URL into (scheme, remainder) the way urllib.parse.urlparse does:
the scheme is the lowercased prefix before the first colon when that prefix
is a valid scheme, otherwise empty with the whole URL as remainder. -/
def splitScheme (u : String) : String × String :=
  match splitAtColon u.toList with
  | some (pre, post) =>
    if validScheme pre then (String.mk (pre.map Char.toLower), String.mk post)
    else ("", u)
  | none => ("", u)

/-- urlparse(u).scheme. -/
def urlScheme (u : String) : String := (splitScheme u).1

/-- urlparse(u).hostname or "": the lowercased host part of the netloc
(after "//", before any slash, query or fragment, with userinfo and port
stripped); empty when the URL has no netloc. -/
def hostname (u : String) : String :=
  match (splitScheme u).2.toList with
  | '/' :: '/' :: netlocRest =>
    let netloc := netlocRest.takeWhile
      (fun c => !(c = '/') && !(c = '?') && !(c = '#'))
    String.mk (((afterLastAt netloc).takeWhile
      (fun c => !(c = ':'))).map Char.toLower)
  | _ => ""

/-- The payload of the ValueError proxy_utils.infer_type raises: the
offending scheme and the full proxy address appear in its message. -/
structure UnsupportedScheme where
  scheme : String
  proxyUrl : String
deriving DecidableEq

/-- proxy_utils.infer_type: classify a proxy address by the scheme of its
URL (after stripping surrounding whitespace).  http/https map to the HTTP
family, any scheme beginning with socks maps to the SOCKS family, and any
other scheme raises a ValueError carrying the scheme and the address.
A pure function: no I/O, no retries. -/
def infer_type (proxy : String) : Except UnsupportedScheme ProxyType :=
  let scheme := lowerStr (urlScheme (pystrip proxy))
  if scheme = "http" || scheme = "https" then .ok .HTTP
  else if startsWithStr scheme "socks" then .ok .SOCKS
  else .error ⟨scheme, proxy⟩

/-- proxy_utils.get_exponential_backoff.  Floats are modelled as rationals;
the random.uniform(0.2, 0.5) draw is the explicit jitter_sample argument. -/
def get_exponential_backoff (attempt : Nat) (base_delay : ℚ) (jitter : Bool)
    (jitter_sample : ℚ) (max_delay : ℚ) : ℚ :=
  let delay := base_delay * 2 ^ attempt
  let delay := if jitter then delay + jitter_sample else delay
  min delay max_delay

/-- What the wire delivers for one attempt: either a (final) response after
redirects, or one of the exception classes ProxyRequest.submit catches.
certError is aiohttp.ClientConnectorCertificateError; timeoutError is
asyncio.TimeoutError; connError is aiohttp.ClientConnectionError (which
includes non-certificate TLS failures); respError is
aiohttp.ClientResponseError (malformed response); payloadError is
aiohttp.ClientPayloadError; clientError is any other aiohttp.ClientError.
For a response, textOk records whether decoding the body as text would
succeed, text/raw are the two materializations, and contentType is the
Content-Type header value. -/
inductive NetResponse where
  | ok (finalUrl : String) (status : Nat) (contentType : String)
      (textOk : Bool) (text : String) (raw : List Nat)
      (respHeaders : List (String × String))
  | certError (msg : String)
  | timeoutError (msg : String)
  | connError (msg : String)
  | respError (msg : String)
  | payloadError (msg : String)
  | clientError (msg : String)

/-- The transport-failure classes ProxyRequest.submit catches with its
second except clause (everything except the certificate error). -/
def isTransportError : NetResponse → Bool
  | .timeoutError _ => true
  | .connError _ => true
  | .respError _ => true
  | .payloadError _ => true
  | .clientError _ => true
  | _ => false

/-- str(e) for the caught exception, stored in the failure dict. -/
def netErrMsg : NetResponse → String
  | .ok _ _ _ _ _ _ _ => ""
  | .certError m => m
  | .timeoutError m => m
  | .connError m => m
  | .respError m => m
  | .payloadError m => m
  | .clientError m => m

/-- The errors ProxyRequest.submit can raise to its caller: the ValueError
from infer_type, and ProxyOriginMismatchError (which carries the expected
host, the actual host and the final response URL). -/
inductive SubmitError where
  | unsupportedScheme (scheme : String) (proxyUrl : String)
  | originMismatch (expected_host : String) (actual_host : String) (url : String)

/-- The executor configuration of ProxyRequest.__init__ (construction-time
flags; verify_ssl only affects the wire, which the oracle absorbs). -/
structure ProxyRequestCfg where
  verify_ssl : Bool := true
  allow_redirects : Bool := true
  max_redirects : Nat := 10
  verify_origin : Bool := true

/-- The content-type test `any(x in content_type for x in ("text","json","xml"))`
after lowering; substring containment via splitOn. -/
def isTextContent (ct : String) : Bool :=
  let lower := lowerStr ct
  containsStr lower "text" || containsStr lower "json" || containsStr lower "xml"

/-- Body materialization: text-like content is decoded as text, falling back
to raw bytes on decode failure; anything else is read as raw bytes. -/
def materializeBody (contentType : String) (textOk : Bool) (text : String)
    (raw : List Nat) : PyVal :=
  if isTextContent contentType then (if textOk then .str text else .bytes raw)
  else .bytes raw

/-- The dict ProxyRequest.submit returns for a caught transport failure, in
insertion order: error message, raw target URL, proxy address, null status,
null body, empty headers. -/
def failure_record (msg url proxy : String) : PyVal :=
  .dict [("error", .str msg), ("url", .str url), ("proxy", .str proxy),
         ("status", .pynone), ("body", .pynone), ("headers", .dict [])]

/-- The dict ProxyRequest.submit returns for a completed response, in
insertion order: body, final URL, status, response headers. -/
def success_record (finalUrl : String) (status : Nat) (contentType : String)
    (textOk : Bool) (text : String) (raw : List Nat)
    (respHeaders : List (String × String)) : PyVal :=
  .dict [("body", materializeBody contentType textOk text raw),
         ("url", .str finalUrl), ("status", .int status),
         ("headers", .dict (respHeaders.map (fun p => (p.1, PyVal.str p.2))))]

namespace ProxyRequest

/-- ProxyRequest.submit for one attempt.  The classifier runs before the
try block, so an unsupported scheme raises.  A certificate error is logged
and falls off the end of the function (Python then returns None); the other
caught transport errors return the failure dict; a completed response is
checked for origin integrity (raising ProxyOriginMismatchError on a host
mismatch) and otherwise returned as the success dict.  The wire behavior
(headers sent, timeout) is absorbed into the NetResponse oracle. -/
def submit (cfg : ProxyRequestCfg) (method : HTTPMethod) (url proxy : String)
    (resp : NetResponse) : Except SubmitError (Option PyVal) :=
  match infer_type proxy with
  | .error e => .error (.unsupportedScheme e.scheme e.proxyUrl)
  | .ok _ =>
    match resp with
    | .certError _ => .ok none
    | .timeoutError m => .ok (some (failure_record m url proxy))
    | .connError m => .ok (some (failure_record m url proxy))
    | .respError m => .ok (some (failure_record m url proxy))
    | .payloadError m => .ok (some (failure_record m url proxy))
    | .clientError m => .ok (some (failure_record m url proxy))
    | .ok finalUrl status contentType textOk text raw respHeaders =>
      if cfg.verify_origin && !(hostname url = hostname finalUrl) then
        .error (.originMismatch (hostname url) (hostname finalUrl) finalUrl)
      else
        .ok (some (success_record finalUrl status contentType textOk text raw
          respHeaders))

end ProxyRequest

/-- SmartFetch._format.  The Python body tuple-unpacks the executor's result
dict into four variables; iterating a dict yields its keys, so the four
variables are bound to the key strings in insertion order when the dict has
exactly four entries, and unpacking raises ValueError otherwise (modelled as
the error branch). -/
def smart_format (result : PyVal) (proxy : String) (retries : Nat)
    (initial_method final_method : HTTPMethod) : Except String PyVal :=
  match result with
  | .dict entries =>
    match entries.map Prod.fst with
    | [a, b, c, d] =>
      .ok (.dict [("body", .str a), ("url", .str b), ("status", .str c),
        ("headers", .str d), ("used_proxy", .str proxy), ("retries", .int retries),
        ("initial_method", methodVal initial_method),
        ("final_method", methodVal final_method)])
    | _ => .error "unpack arity mismatch"
  | _ => .error "cannot unpack non-dict"

/-- What one SmartFetch.fetch attempt contributes: a raised submit error is
caught and logged (the attempt continues), an absent result fails the
`if result:` check, and a truthy result dict is passed to _format, whose own
ValueError is likewise caught (the attempt continues). -/
def attempt_result (r : Except SubmitError (Option PyVal)) (proxy : String)
    (retries : Nat) (initial_method stage_method : HTTPMethod) : Option PyVal :=
  match r with
  | .error _ => none
  | .ok none => none
  | .ok (some d) =>
    if pyTruthy d then
      match smart_format d proxy retries initial_method stage_method with
      | .ok out => some out
      | .error _ => none
    else none

/-- The environment of one SmartFetch.fetch call: whether validate_proxy
accepts the HTTP proxy, and the wire's answer to the k-th submit call of the
call (attempts are numbered in execution order across stages). -/
structure SmartEnv where
  validate_ok : Bool
  resp : Nat → NetResponse

/-- One retry stage of SmartFetch.fetch: up to `remaining` attempts at
ascending attempt index, stopping at the first attempt whose result is
surfaced; returns that result (or none) and the next global attempt
counter. -/
def retry_loop (cfg : ProxyRequestCfg) (env : SmartEnv) (url proxy : String)
    (stage_method initial_method : HTTPMethod) :
    Nat → Nat → Nat → Option PyVal × Nat
  | 0, _, k => (none, k)
  | remaining + 1, attempt, k =>
    let r := ProxyRequest.submit cfg stage_method url proxy (env.resp k)
    match attempt_result r proxy attempt initial_method stage_method with
    | some out => (some out, k + 1)
    | none => retry_loop cfg env url proxy stage_method initial_method
        remaining (attempt + 1) (k + 1)

/-- Python truthiness of an optional proxy string (None and "" are falsy). -/
def truthyOpt : Option String → Bool
  | none => false
  | some s => !(s = "")

/-- SmartFetch.fetch.  Raises ValueError (the error branch) when neither
proxy is truthy; demotes the HTTP proxy to None when validate_proxy rejects
it; then runs the HEAD retry stage (only when the requested method is HEAD
and an HTTP proxy survives), the one-shot HTTP GET fallback, and the SOCKS
GET retry stage, returning the first surfaced result or None on exhaustion.
SmartFetch constructs its executor as ProxyRequest(verify_ssl=verify_ssl)
with the remaining flags at their defaults.  Backoff sleeps do not affect
the result and are absorbed into the oracle. -/
def smart_fetch (verify_ssl : Bool) (env : SmartEnv) (url : String)
    (method : HTTPMethod) (http_proxy socks_proxy : Option String)
    (http_retries socks_retries : Nat) : Except String (Option PyVal) :=
  let cfg : ProxyRequestCfg := { verify_ssl := verify_ssl }
  if !truthyOpt http_proxy && !truthyOpt socks_proxy then
    .error "At least one of http_proxy or socks_proxy must be provided."
  else
    let http_proxy := if truthyOpt http_proxy && !env.validate_ok then none
      else http_proxy
    let (r1, k1) :=
      match http_proxy with
      | some hp =>
        if method = HTTPMethod.HEAD && !(hp = "") then
          retry_loop cfg env url hp HTTPMethod.HEAD method http_retries 0 0
        else (none, 0)
      | none => (none, 0)
    match r1 with
    | some out => .ok (some out)
    | none =>
      let (r2, k2) :=
        match http_proxy with
        | some hp =>
          if !(hp = "") then
            (attempt_result
              (ProxyRequest.submit cfg HTTPMethod.GET url hp (env.resp k1))
              hp 0 method HTTPMethod.GET, k1 + 1)
          else (none, k1)
        | none => (none, k1)
      match r2 with
      | some out => .ok (some out)
      | none =>
        match socks_proxy with
        | some sp =>
          if !(sp = "") then
            .ok (retry_loop cfg env url sp HTTPMethod.GET method
              socks_retries 0 k2).1
          else .ok none
        | none => .ok none

/-- dict.setdefault(k, v) on an insertion-ordered association list: a
present key leaves the dict unchanged, an absent key is appended. -/
def setdefault (d : List (String × String)) (k v : String) :
    List (String × String) :=
  if d.any (fun p => p.1 = k) then d else d ++ [(k, v)]

/-- Key membership in an insertion-ordered association list. -/
def has_key (d : List (String × String)) (k : String) : Bool :=
  d.any (fun p => p.1 = k)

/-- The headers object BruteFetch.fetch mutates: `headers = headers or {}`
yields the caller's own dict exactly when it is truthy (nonempty), then each
default header is inserted with setdefault. -/
def brute_merge_headers (caller defaults : List (String × String)) :
    List (String × String) :=
  defaults.foldl (fun d kv => setdefault d kv.1 kv.2)
    (if caller.isEmpty then [] else caller)

/-- Whether the mapping BruteFetch.fetch goes on to mutate is the caller's
own headers object: `headers or {}` returns the caller's dict iff it is
truthy, i.e. nonempty. -/
def brute_headers_aliased (caller : List (String × String)) : Bool :=
  !caller.isEmpty

/-- The fixed data of one BruteFetch.fetch call: target URL, method, the
executor configuration BruteFetch built, and the wire's answer for each
proxy (the worker's submit call on that proxy). -/
structure RaceEnv where
  url : String
  method : HTTPMethod
  cfg : ProxyRequestCfg
  net : String → NetResponse

/-- The submit outcome a worker observes for a given proxy. -/
def submitOf (E : RaceEnv) (p : String) : Except SubmitError (Option PyVal) :=
  ProxyRequest.submit E.cfg E.method E.url p (E.net p)

/-- The dict a worker stores into result_container["result"] when it claims
the winner slot: the submit dict's body/url/status/headers fields plus the
proxy it used and the (identical) initial and final methods. -/
def race_record (E : RaceEnv) (d : PyVal) (proxy : String) : PyVal :=
  .dict [("body", (pyLookup d "body").getD .pynone),
         ("url", (pyLookup d "url").getD .pynone),
         ("status", (pyLookup d "status").getD .pynone),
         ("headers", (pyLookup d "headers").getD .pynone),
         ("used_proxy", .str proxy),
         ("initial_method", methodVal E.method),
         ("final_method", methodVal E.method)]

/-- The worker's check-then-set on the winner slot, atomic because no await
separates the check from the write: a raised submit error is caught (no
claim), an absent result or a falsy dict fails `if result` (no claim), and a
truthy dict is recorded exactly when the slot is still empty. -/
def claim_update (E : RaceEnv) (winner : Option PyVal)
    (r : Except SubmitError (Option PyVal)) (proxy : String) : Option PyVal :=
  match r with
  | .ok (some d) =>
    if pyTruthy d && winner.isNone then some (race_record E d proxy) else winner
  | _ => winner

/-- A worker's position between suspension points: at the loop condition,
suspended inside submit on a dequeued proxy, about to run the post-submit
claim block, finished, or cancelled. -/
inductive WPhase where
  | loopHead
  | running (proxy : String)
  | claiming (proxy : String)
  | done
  | cancelled
deriving DecidableEq

/-- A worker that has observably stopped (completed or cancelled). -/
def isStopped : WPhase → Bool
  | .done => true
  | .cancelled => true
  | _ => false

/-- The ephemeral state of one race: the FIFO proxy queue, the single winner
slot, each worker's phase, and the ghost list of proxies whose submit was
started (the dequeue and the submit call are separated by no await, so they
form one atomic block). -/
structure RaceState where
  queue : List String
  winner : Option PyVal
  workers : List WPhase
  attempted : List String

/-- One atomic step of the race.  exitLoop: a worker at the loop head
observes an empty queue or a set winner and completes.  dequeue: a worker at
the loop head observes a nonempty queue and no winner, takes the next proxy
and enters submit (recording the attempt).  complete: a suspended submit
returns.  claim: the post-submit block runs the atomic check-then-set and
loops.  cancelAtLoop / cancelAtRun: once a winner is set, a not-yet-started
or suspended worker may be cancelled (BruteFetch cancels pending workers
only after a result is found). -/
inductive Step (E : RaceEnv) : RaceState → RaceState → Prop where
  | exitLoop {s : RaceState} {i : Nat}
      (h : s.workers[i]? = some .loopHead)
      (hc : s.queue = [] ∨ s.winner.isSome) :
      Step E s { s with workers := s.workers.set i .done }
  | dequeue {s : RaceState} {i : Nat} {p : String} {rest : List String}
      (h : s.workers[i]? = some .loopHead)
      (hq : s.queue = p :: rest) (hw : s.winner = none) :
      Step E s { s with queue := rest,
                        workers := s.workers.set i (.running p),
                        attempted := s.attempted ++ [p] }
  | complete {s : RaceState} {i : Nat} {p : String}
      (h : s.workers[i]? = some (.running p)) :
      Step E s { s with workers := s.workers.set i (.claiming p) }
  | claim {s : RaceState} {i : Nat} {p : String}
      (h : s.workers[i]? = some (.claiming p)) :
      Step E s { s with winner := claim_update E s.winner (submitOf E p) p,
                        workers := s.workers.set i .loopHead }
  | cancelAtLoop {s : RaceState} {i : Nat}
      (h : s.workers[i]? = some .loopHead)
      (hw : s.winner.isSome) :
      Step E s { s with workers := s.workers.set i .cancelled }
  | cancelAtRun {s : RaceState} {i : Nat} {p : String}
      (h : s.workers[i]? = some (.running p))
      (hw : s.winner.isSome) :
      Step E s { s with workers := s.workers.set i .cancelled }

/-- The state right after BruteFetch.fetch fills the queue and creates the
concurrency_limit worker tasks. -/
def race_init (proxies : List String) (concurrency_limit : Nat) : RaceState :=
  ⟨proxies, none, List.replicate concurrency_limit .loopHead, []⟩

/-- A race state in which no further step is possible. -/
def RaceFinal (E : RaceEnv) (s : RaceState) : Prop := ∀ t, ¬ Step E s t

/-- Worker-phase rank for the termination measure. -/
def wrank : WPhase → Nat
  | .loopHead => 1
  | .running _ => 3
  | .claiming _ => 2
  | .done => 0
  | .cancelled => 0

/-- Termination measure of a race state: every step strictly decreases it. -/
def raceMeasure (s : RaceState) : Nat :=
  4 * s.queue.length + (s.workers.map wrank).sum

/-- What BruteFetch.fetch returns: None immediately on an empty proxy list
(before any worker is created); otherwise the winner slot of a drained race
over the queue (concurrency_limit is positive in any call the code makes;
its default is 15). -/
def brute_fetch_returns (E : RaceEnv) (proxies : List String)
    (concurrency_limit : Nat) (r : Option PyVal) : Prop :=
  if proxies = [] then r = none
  else ∃ s, Relation.ReflTransGen (Step E) (race_init proxies concurrency_limit) s
    ∧ RaceFinal E s ∧ r = s.winner

/-- First-match lookup in an insertion-ordered string-to-string dict. -/
def lookup_hdr : List (String × String) → String → Option String
  | [], _ => none
  | (k1, v) :: rest, k => if k1 = k then some v else lookup_hdr rest k

/-- Folding setdefault over a list of default entries, as the header-merge
loop of BruteFetch.fetch does. -/
def fold_setdefault (ds : List (String × String))
    (d : List (String × String)) : List (String × String) :=
  ds.foldl (fun acc kv => setdefault acc kv.1 kv.2) d

/-- The reachability invariant of one race: the queue plus the attempted
proxies is a permutation of the input list; no worker is cancelled before a
winner exists; once any worker completed with no winner the queue was
drained; any worker holding a proxy has its attempt recorded; and the
winner, when set, is the record of some truthy submit dict. -/
structure RaceInv (E : RaceEnv) (proxies : List String) (s : RaceState) :
    Prop where
  conserve : (s.queue ++ s.attempted).Perm proxies
  cancelClean : s.winner = none → WPhase.cancelled ∉ s.workers
  doneDrained : s.winner = none → WPhase.done ∈ s.workers → s.queue = []
  heldAttempted : ∀ (i : Nat) (p : String),
    s.workers[i]? = some (.running p) ∨ s.workers[i]? = some (.claiming p) →
    p ∈ s.attempted
  winnerShape : ∀ r, s.winner = some r →
    ∃ p d, submitOf E p = Except.ok (some d) ∧ pyTruthy d = true ∧
      r = race_record E d p

/-- Concrete race for the transport-failure divergence: one worker, two
HTTP proxies, every attempt fails with a connection error. -/
def c1_url : String := "http://target.example/page"

/-- First proxy of the concrete race. -/
def c1_p1 : String := "http://proxyone.example:8080"

/-- Second proxy of the concrete race (never attempted). -/
def c1_p2 : String := "http://proxytwo.example:8080"

/-- Environment of the concrete race: every proxy's attempt raises
aiohttp.ClientConnectionError on the wire. -/
def E_c1 : RaceEnv := ⟨c1_url, .GET, {}, fun _ => .connError "Connection refused"⟩

/-- The two-proxy input list of the concrete race. -/
def c1_proxies : List String := [c1_p1, c1_p2]

/-- The record the worker stores after its transport-failed attempt. -/
def c1_winner : PyVal :=
  race_record E_c1 (failure_record "Connection refused" c1_url c1_p1) c1_p1

/-- Intermediate states of the concrete race. -/
def c1_s1 : RaceState := ⟨[c1_p2], none, [.running c1_p1], [c1_p1]⟩

/-- The worker's submit has returned the failure dict. -/
def c1_s2 : RaceState := ⟨[c1_p2], none, [.claiming c1_p1], [c1_p1]⟩

/-- The worker has claimed the winner slot with the failure record. -/
def c1_s3 : RaceState := ⟨[c1_p2], some c1_winner, [.loopHead], [c1_p1]⟩

/-- Final state: the loop exits because a winner is set; the second proxy
was never attempted. -/
def c1_s4 : RaceState := ⟨[c1_p2], some c1_winner, [.done], [c1_p1]⟩

/-- Concrete race in which the single proxy genuinely succeeds. -/
def c5_url : String := "http://t5.example/a"

/-- The succeeding proxy. -/
def c5_g : String := "http://goodproxy.example:3128"

/-- The wire response: a same-host 200 text response. -/
def c5_resp : NetResponse :=
  .ok "http://t5.example/b" 200 "text/html" true "<html>ok</html>" []
    [("Content-Type", "text/html")]

/-- Environment of the all-success race. -/
def E_c5 : RaceEnv := ⟨c5_url, .GET, {}, fun _ => c5_resp⟩

/-- Its one-proxy input list. -/
def c5_proxies : List String := [c5_g]

/-- The success dict submit returns there. -/
def c5_d : PyVal :=
  success_record "http://t5.example/b" 200 "text/html" true "<html>ok</html>" []
    [("Content-Type", "text/html")]

/-- The winning record of the all-success race. -/
def c5_winner : PyVal := race_record E_c5 c5_d c5_g

/-- States of the all-success run. -/
def c5_s1 : RaceState := ⟨[], none, [.running c5_g], [c5_g]⟩

/-- Submit returned the success dict. -/
def c5_s2 : RaceState := ⟨[], none, [.claiming c5_g], [c5_g]⟩

/-- The success was claimed. -/
def c5_s3 : RaceState := ⟨[], some c5_winner, [.loopHead], [c5_g]⟩

/-- Final state of the all-success run. -/
def c5_s4 : RaceState := ⟨[], some c5_winner, [.done], [c5_g]⟩

/-- Concrete race for total exhaustion: two workers, one SOCKS proxy whose
attempt times out. -/
def c9_url : String := "https://target9.example/"

/-- The timing-out proxy. -/
def c9_q : String := "socks5://brokenproxy.example:1080"

/-- Environment: every attempt raises asyncio.TimeoutError. -/
def E_c9 : RaceEnv := ⟨c9_url, .GET, {}, fun _ => .timeoutError ""⟩

/-- Its one-proxy input list. -/
def c9_proxies : List String := [c9_q]

/-- The record the first worker stores after the timed-out attempt. -/
def c9_winner : PyVal := race_record E_c9 (failure_record "" c9_url c9_q) c9_q

/-- Worker 0 has dequeued the proxy. -/
def c9_s1 : RaceState := ⟨[], none, [.running c9_q, .loopHead], [c9_q]⟩

/-- Worker 1 observed the drained queue and completed. -/
def c9_s2 : RaceState := ⟨[], none, [.running c9_q, .done], [c9_q]⟩

/-- Worker 0's submit returned the failure dict. -/
def c9_s3 : RaceState := ⟨[], none, [.claiming c9_q, .done], [c9_q]⟩

/-- Worker 0 claimed the winner slot with the failure record. -/
def c9_s4 : RaceState := ⟨[], some c9_winner, [.loopHead, .done], [c9_q]⟩

/-- Final state of the exhaustion run: a non-null result despite zero
successes. -/
def c9_s5 : RaceState := ⟨[], some c9_winner, [.done, .done], [c9_q]⟩

lemma memQ {α : Type} {l : List α} {n : Nat} {a : α} (h : l[n]? = some a) :
    a ∈ l := by
  obtain ⟨hn, rfl⟩ := List.getElem?_eq_some_iff.mp h
  exact List.getElem_mem hn

lemma sum_map_set (f : WPhase → Nat) :
    ∀ (l : List WPhase) (i : Nat) (x y : WPhase), l[i]? = some y →
      ((l.set i x).map f).sum + f y = (l.map f).sum + f x
  | [], i, x, y, h => by simp at h
  | a :: l, 0, x, y, h => by
    simp only [List.getElem?_cons_zero, Option.some.injEq] at h
    subst h
    simp only [List.set_cons_zero, List.map_cons, List.sum_cons]
    omega
  | a :: l, i + 1, x, y, h => by
    simp only [List.getElem?_cons_succ] at h
    have ih := sum_map_set f l i x y h
    simp only [List.set_cons_succ, List.map_cons, List.sum_cons]
    omega

lemma claim_update_some {E : RaceEnv} {r : PyVal}
    (res : Except SubmitError (Option PyVal)) (q : String) :
    claim_update E (some r) res q = some r := by
  unfold claim_update
  match res with
  | .error _ => rfl
  | .ok none => rfl
  | .ok (some d) => simp

lemma claim_update_none_inv {E : RaceEnv} {w : Option PyVal}
    {res : Except SubmitError (Option PyVal)} {q : String}
    (h : claim_update E w res q = none) : w = none := by
  match w with
  | none => rfl
  | some r => rw [claim_update_some res q] at h; exact absurd h (by simp)

lemma claim_update_some_inv {E : RaceEnv} {w : Option PyVal}
    {res : Except SubmitError (Option PyVal)} {q : String} {r : PyVal}
    (h : claim_update E w res q = some r) :
    w = some r ∨ (w = none ∧ ∃ d, res = Except.ok (some d) ∧ pyTruthy d = true ∧
      r = race_record E d q) := by
  match w with
  | some r0 =>
    rw [claim_update_some res q] at h
    exact Or.inl h
  | none =>
    refine Or.inr ⟨rfl, ?_⟩
    unfold claim_update at h
    match res with
    | .error _ => exact absurd h (by simp)
    | .ok none => exact absurd h (by simp)
    | .ok (some d) =>
      by_cases ht : pyTruthy d
      · refine ⟨d, rfl, ht, ?_⟩
        simp [ht] at h
        exact h.symm
      · simp [ht] at h

lemma step_winner_mono {E : RaceEnv} {s t : RaceState} (h : Step E s t)
    {r : PyVal} (hw : s.winner = some r) : t.winner = some r := by
  cases h with
  | exitLoop h hc => exact hw
  | dequeue h hq hww => exact hw
  | complete h => exact hw
  | @claim i p h => rw [hw]; exact claim_update_some _ _
  | cancelAtLoop h hww => exact hw
  | cancelAtRun h hww => exact hw

lemma steps_winner_mono {E : RaceEnv} {s t : RaceState}
    (h : Relation.ReflTransGen (Step E) s t) {r : PyVal}
    (hw : s.winner = some r) : t.winner = some r := by
  induction h with
  | refl => exact hw
  | tail h1 h2 ih => exact step_winner_mono h2 ih

lemma step_measure {E : RaceEnv} {s t : RaceState} (h : Step E s t) :
    raceMeasure t < raceMeasure s := by
  cases h with
  | @exitLoop i h hc =>
    have hs := sum_map_set wrank s.workers i .done .loopHead h
    simp only [raceMeasure, wrank] at *
    omega
  | @dequeue i p rest h hq hw =>
    have hs := sum_map_set wrank s.workers i (.running p) .loopHead h
    simp only [raceMeasure, wrank, hq, List.length_cons] at *
    omega
  | @complete i p h =>
    have hs := sum_map_set wrank s.workers i (.claiming p) (.running p) h
    simp only [raceMeasure, wrank] at *
    omega
  | @claim i p h =>
    have hs := sum_map_set wrank s.workers i .loopHead (.claiming p) h
    simp only [raceMeasure, wrank] at *
    omega
  | @cancelAtLoop i h hw =>
    have hs := sum_map_set wrank s.workers i .cancelled .loopHead h
    simp only [raceMeasure, wrank] at *
    omega
  | @cancelAtRun i p h hw =>
    have hs := sum_map_set wrank s.workers i .cancelled (.running p) h
    simp only [raceMeasure, wrank] at *
    omega

lemma race_no_step_of_stopped {E : RaceEnv} {s : RaceState}
    (hall : ∀ w ∈ s.workers, isStopped w = true) : RaceFinal E s := by
  intro t h
  cases h with
  | @exitLoop i h hc => simpa [isStopped] using hall _ (memQ h)
  | @dequeue i p rest h hq hw => simpa [isStopped] using hall _ (memQ h)
  | @complete i p h => simpa [isStopped] using hall _ (memQ h)
  | @claim i p h => simpa [isStopped] using hall _ (memQ h)
  | @cancelAtLoop i h hw => simpa [isStopped] using hall _ (memQ h)
  | @cancelAtRun i p h hw => simpa [isStopped] using hall _ (memQ h)

lemma race_step_of_not_stopped {E : RaceEnv} {s : RaceState} {w : WPhase}
    (hw : w ∈ s.workers) (hst : isStopped w = false) : ∃ t, Step E s t := by
  obtain ⟨i, hi⟩ := List.mem_iff_getElem?.mp hw
  cases w with
  | loopHead =>
    cases hq : s.queue with
    | nil => exact ⟨_, Step.exitLoop hi (Or.inl hq)⟩
    | cons p rest =>
      cases hwin : s.winner with
      | none => exact ⟨_, Step.dequeue hi hq hwin⟩
      | some r => exact ⟨_, Step.exitLoop hi (Or.inr (by simp [hwin]))⟩
  | running p => exact ⟨_, Step.complete hi⟩
  | claiming p => exact ⟨_, Step.claim hi⟩
  | done => simp [isStopped] at hst
  | cancelled => simp [isStopped] at hst

lemma race_final_iff {E : RaceEnv} {s : RaceState} :
    RaceFinal E s ↔ ∀ w ∈ s.workers, isStopped w = true := by
  constructor
  · intro hf
    by_contra hc
    push_neg at hc
    obtain ⟨w, hw, hst⟩ := hc
    obtain ⟨t, ht⟩ := race_step_of_not_stopped hw (by
      cases h2 : isStopped w
      · rfl
      · exact absurd h2 hst)
    exact hf t ht
  · exact race_no_step_of_stopped

lemma step_workers_length {E : RaceEnv} {s t : RaceState} (h : Step E s t) :
    t.workers.length = s.workers.length := by
  cases h <;> simp

lemma steps_workers_length {E : RaceEnv} {s t : RaceState}
    (h : Relation.ReflTransGen (Step E) s t) :
    t.workers.length = s.workers.length := by
  induction h with
  | refl => rfl
  | tail h1 h2 ih => rw [step_workers_length h2, ih]

lemma race_inv_init (E : RaceEnv) (proxies : List String) (m : Nat) :
    RaceInv E proxies (race_init proxies m) := by
  refine ⟨by simp [race_init], ?_, ?_, ?_, ?_⟩
  · intro _ hmem
    have := List.eq_of_mem_replicate hmem
    simp at this
  · intro _ hmem
    have := List.eq_of_mem_replicate hmem
    simp at this
  · intro i p hip
    rcases hip with hip | hip <;>
    · have := List.eq_of_mem_replicate (memQ hip)
      simp at this
  · intro r hr
    simp [race_init] at hr

lemma getElem_set_lookup {l : List WPhase} {i j : Nat} {x w : WPhase}
    (hj : (l.set i x)[j]? = some w) : l[j]? = some w ∨ (w = x ∧ i = j) := by
  by_cases hij : i = j
  · subst hij
    rw [List.getElem?_set_self'] at hj
    cases hl : l[i]? with
    | none => rw [hl] at hj; simp at hj
    | some y =>
      rw [hl] at hj
      simp at hj
      exact Or.inr ⟨hj.symm, rfl⟩
  · rw [List.getElem?_set_ne hij] at hj
    exact Or.inl hj

lemma race_inv_step {E : RaceEnv} {proxies : List String} {s t : RaceState}
    (h : Step E s t) (inv : RaceInv E proxies s) : RaceInv E proxies t := by
  cases h with
  | @exitLoop i h hc =>
    refine ⟨inv.conserve, ?_, ?_, ?_, inv.winnerShape⟩
    · intro hw hmem
      rcases List.mem_or_eq_of_mem_set hmem with hmem | hmem
      · exact inv.cancelClean hw hmem
      · simp at hmem
    · intro hw _
      rcases hc with hq | hq
      · exact hq
      · rw [hw] at hq; simp at hq
    · intro j q hjq
      rcases hjq with hjq | hjq <;>
      · rcases getElem_set_lookup hjq with hjq | ⟨hv, _⟩
        · exact inv.heldAttempted j q (by first | exact Or.inl hjq | exact Or.inr hjq)
        · simp at hv
  | @dequeue i p rest h hq hw =>
    refine ⟨?_, ?_, ?_, ?_, ?_⟩
    · have hc := inv.conserve
      rw [hq] at hc
      have h2 : List.Perm ((rest ++ s.attempted) ++ [p])
          (p :: (rest ++ s.attempted)) :=
        List.perm_append_singleton p (rest ++ s.attempted)
      have h1 : List.Perm (rest ++ (s.attempted ++ [p]))
          ((p :: rest) ++ s.attempted) := by
        simpa [List.append_assoc] using h2
      exact h1.trans hc
    · intro hw2 hmem
      rcases List.mem_or_eq_of_mem_set hmem with hmem | hmem
      · exact inv.cancelClean hw hmem
      · simp at hmem
    · intro hw2 hmem
      rcases List.mem_or_eq_of_mem_set hmem with hmem | hmem
      · have := inv.doneDrained hw hmem
        rw [hq] at this
        simp at this
      · simp at hmem
    · intro j q hjq
      rcases hjq with hjq | hjq
      · rcases getElem_set_lookup hjq with hjq | ⟨hv, _⟩
        · exact List.mem_append_left _ (inv.heldAttempted j q (Or.inl hjq))
        · simp at hv
          subst hv
          simp
      · rcases getElem_set_lookup hjq with hjq | ⟨hv, _⟩
        · exact List.mem_append_left _ (inv.heldAttempted j q (Or.inr hjq))
        · simp at hv
    · intro r hr
      exact inv.winnerShape r hr
  | @complete i p h =>
    refine ⟨inv.conserve, ?_, ?_, ?_, inv.winnerShape⟩
    · intro hw hmem
      rcases List.mem_or_eq_of_mem_set hmem with hmem | hmem
      · exact inv.cancelClean hw hmem
      · simp at hmem
    · intro hw hmem
      rcases List.mem_or_eq_of_mem_set hmem with hmem | hmem
      · exact inv.doneDrained hw hmem
      · simp at hmem
    · intro j q hjq
      rcases hjq with hjq | hjq
      · rcases getElem_set_lookup hjq with hjq | ⟨hv, _⟩
        · exact inv.heldAttempted j q (Or.inl hjq)
        · simp at hv
      · rcases getElem_set_lookup hjq with hjq | ⟨hv, _⟩
        · exact inv.heldAttempted j q (Or.inr hjq)
        · simp at hv
          subst hv
          exact inv.heldAttempted i q (Or.inl h)
  | @claim i p h =>
    refine ⟨inv.conserve, ?_, ?_, ?_, ?_⟩
    · intro hw hmem
      have hw0 := claim_update_none_inv hw
      rcases List.mem_or_eq_of_mem_set hmem with hmem | hmem
      · exact inv.cancelClean hw0 hmem
      · simp at hmem
    · intro hw hmem
      have hw0 := claim_update_none_inv hw
      rcases List.mem_or_eq_of_mem_set hmem with hmem | hmem
      · exact inv.doneDrained hw0 hmem
      · simp at hmem
    · intro j q hjq
      rcases hjq with hjq | hjq <;>
      · rcases getElem_set_lookup hjq with hjq | ⟨hv, _⟩
        · exact inv.heldAttempted j q (by first | exact Or.inl hjq | exact Or.inr hjq)
        · simp at hv
    · intro r hr
      rcases claim_update_some_inv hr with hr0 | ⟨_, d, hres, htr, hrr⟩
      · exact inv.winnerShape r hr0
      · exact ⟨p, d, hres, htr, hrr⟩
  | @cancelAtLoop i h hw =>
    refine ⟨inv.conserve, ?_, ?_, ?_, inv.winnerShape⟩
    · intro hw2
      rw [hw2] at hw
      simp at hw
    · intro hw2
      rw [hw2] at hw
      simp at hw
    · intro j q hjq
      rcases hjq with hjq | hjq <;>
      · rcases getElem_set_lookup hjq with hjq | ⟨hv, _⟩
        · exact inv.heldAttempted j q (by first | exact Or.inl hjq | exact Or.inr hjq)
        · simp at hv
  | @cancelAtRun i p h hw =>
    refine ⟨inv.conserve, ?_, ?_, ?_, inv.winnerShape⟩
    · intro hw2
      rw [hw2] at hw
      simp at hw
    · intro hw2
      rw [hw2] at hw
      simp at hw
    · intro j q hjq
      rcases hjq with hjq | hjq <;>
      · rcases getElem_set_lookup hjq with hjq | ⟨hv, _⟩
        · exact inv.heldAttempted j q (by first | exact Or.inl hjq | exact Or.inr hjq)
        · simp at hv

lemma race_inv_reachable {E : RaceEnv} {proxies : List String} {m : Nat}
    {s : RaceState}
    (h : Relation.ReflTransGen (Step E) (race_init proxies m) s) :
    RaceInv E proxies s := by
  induction h with
  | refl => exact race_inv_init E proxies m
  | tail h1 h2 ih => exact race_inv_step h2 ih

lemma succ_reach {E : RaceEnv} {proxies : List String} {m : Nat}
    {s : RaceState}
    (H : ∀ p ∈ proxies, ∃ d, submitOf E p = Except.ok (some d) ∧ pyTruthy d = true)
    (h : Relation.ReflTransGen (Step E) (race_init proxies m) s) :
    s.winner = none → ∀ p ∈ s.attempted, ∃ i : Nat,
      s.workers[i]? = some (.running p) ∨ s.workers[i]? = some (.claiming p) := by
  induction h with
  | refl => intro _ p hp; simp [race_init] at hp
  | @tail b c h1 h2 ih =>
    have inv := race_inv_reachable h1
    cases h2 with
    | @exitLoop i h hc =>
      intro hw p hp
      obtain ⟨j, hj⟩ := ih hw p hp
      have hij : i ≠ j := by
        intro he
        subst he
        rcases hj with hj | hj <;> (rw [h] at hj; simp at hj)
      refine ⟨j, ?_⟩
      rw [List.getElem?_set_ne hij]
      exact hj
    | @dequeue i p0 rest h hq hw0 =>
      intro hw p hp
      rcases List.mem_append.mp hp with hp | hp
      · obtain ⟨j, hj⟩ := ih hw0 p hp
        have hij : i ≠ j := by
          intro he
          subst he
          rcases hj with hj | hj <;> (rw [h] at hj; simp at hj)
        refine ⟨j, ?_⟩
        rw [List.getElem?_set_ne hij]
        exact hj
      · simp at hp
        subst hp
        have hlen : i < b.workers.length := (List.getElem?_eq_some_iff.mp h).1
        refine ⟨i, Or.inl ?_⟩
        simp [List.getElem?_set_self, hlen]
    | @complete i p0 h =>
      intro hw p hp
      obtain ⟨j, hj⟩ := ih hw p hp
      by_cases hij : i = j
      · subst hij
        rcases hj with hj | hj
        · rw [h] at hj
          simp at hj
          subst hj
          have hlen : i < b.workers.length := (List.getElem?_eq_some_iff.mp h).1
          refine ⟨i, Or.inr ?_⟩
          simp [List.getElem?_set_self, hlen]
        · rw [h] at hj
          simp at hj
      · refine ⟨j, ?_⟩
        rw [List.getElem?_set_ne hij]
        exact hj
    | @claim i p0 h =>
      intro hw
      exfalso
      have hb0 : b.winner = none := claim_update_none_inv hw
      have hp0att : p0 ∈ b.attempted := inv.heldAttempted i p0 (Or.inr h)
      have hp0prox : p0 ∈ proxies := by
        have : p0 ∈ b.queue ++ b.attempted := List.mem_append_right _ hp0att
        exact (inv.conserve.mem_iff).mp this
      obtain ⟨d, hres, htr⟩ := H p0 hp0prox
      rw [hb0, hres] at hw
      simp [claim_update, htr] at hw
    | @cancelAtLoop i h hw0 =>
      intro hw
      exfalso
      rw [hw] at hw0
      simp at hw0
    | @cancelAtRun i p0 h hw0 =>
      intro hw
      exfalso
      rw [hw] at hw0
      simp at hw0

lemma race_winner_of_all_success {E : RaceEnv} {proxies : List String}
    {m : Nat} {s : RaceState} (hm : 0 < m) (hp : proxies ≠ [])
    (H : ∀ p ∈ proxies, ∃ d, submitOf E p = Except.ok (some d) ∧ pyTruthy d = true)
    (hreach : Relation.ReflTransGen (Step E) (race_init proxies m) s)
    (hfin : RaceFinal E s) : ∃ r, s.winner = some r := by
  cases hw : s.winner with
  | some r => exact ⟨r, rfl⟩
  | none =>
    exfalso
    have hall := race_final_iff.mp hfin
    have inv := race_inv_reachable hreach
    have hnc := inv.cancelClean hw
    have hlen : s.workers.length = m := by
      rw [steps_workers_length hreach]
      simp [race_init]
    have hwne : s.workers ≠ [] := by
      intro he
      rw [he] at hlen
      simp at hlen
      omega
    have hdone : WPhase.done ∈ s.workers := by
      cases hws : s.workers with
      | nil => exact absurd hws hwne
      | cons w rest =>
        have hmem : w ∈ s.workers := by rw [hws]; exact List.mem_cons_self w rest
        have hst := hall w hmem
        cases w with
        | done => exact List.mem_cons_self _ _
        | cancelled => exact absurd hmem hnc
        | loopHead => simp [isStopped] at hst
        | running p => simp [isStopped] at hst
        | claiming p => simp [isStopped] at hst
    have hqe : s.queue = [] := inv.doneDrained hw hdone
    have hatt : s.attempted = [] := by
      cases hatt : s.attempted with
      | nil => rfl
      | cons p rest =>
        exfalso
        have hpmem : p ∈ s.attempted := by
          rw [hatt]; exact List.mem_cons_self p rest
        obtain ⟨i, hi⟩ := succ_reach H hreach hw p hpmem
        rcases hi with hi | hi <;>
        · have := hall _ (memQ hi)
          simp [isStopped] at this
    have hc := inv.conserve
    rw [hqe, hatt] at hc
    simp at hc
    exact hp hc

lemma race_final_characterization {E : RaceEnv} {proxies : List String}
    {m : Nat} {s : RaceState} (hm : 0 < m)
    (hreach : Relation.ReflTransGen (Step E) (race_init proxies m) s)
    (hfin : RaceFinal E s) : s.winner.isSome = true ∨ s.queue = [] := by
  cases hw : s.winner with
  | some r => exact Or.inl rfl
  | none =>
    refine Or.inr ?_
    have hall := race_final_iff.mp hfin
    have inv := race_inv_reachable hreach
    have hnc := inv.cancelClean hw
    have hlen : s.workers.length = m := by
      rw [steps_workers_length hreach]
      simp [race_init]
    have hwne : s.workers ≠ [] := by
      intro he
      rw [he] at hlen
      simp at hlen
      omega
    have hdone : WPhase.done ∈ s.workers := by
      cases hws : s.workers with
      | nil => exact absurd hws hwne
      | cons w rest =>
        have hmem : w ∈ s.workers := by rw [hws]; exact List.mem_cons_self w rest
        have hst := hall w hmem
        cases w with
        | done => exact List.mem_cons_self _ _
        | cancelled => exact absurd hmem hnc
        | loopHead => simp [isStopped] at hst
        | running p => simp [isStopped] at hst
        | claiming p => simp [isStopped] at hst
    exact inv.doneDrained hw hdone

lemma lookup_hdr_append (d e : List (String × String)) (k : String) :
    lookup_hdr (d ++ e) k =
      if has_key d k = true then lookup_hdr d k else lookup_hdr e k := by
  induction d with
  | nil => simp [has_key, lookup_hdr]
  | cons kv rest ih =>
    obtain ⟨k1, v⟩ := kv
    by_cases hk : k1 = k
    · have hkey : has_key ((k1, v) :: rest) k = true := by
        unfold has_key
        simp [hk]
      rw [hkey]
      show (if k1 = k then some v else lookup_hdr (rest ++ e) k) =
        (if k1 = k then some v else lookup_hdr rest k)
      rw [if_pos hk, if_pos hk]
    · have hkey : has_key ((k1, v) :: rest) k = has_key rest k := by
        unfold has_key
        simp [hk]
      show (if k1 = k then some v else lookup_hdr (rest ++ e) k) = _
      rw [if_neg hk, ih, hkey]
      by_cases h2 : has_key rest k = true
      · rw [if_pos h2, if_pos h2]
        show _ = (if k1 = k then some v else lookup_hdr rest k)
        rw [if_neg hk]
      · rw [if_neg h2, if_neg h2]

lemma has_key_setdefault_of {d : List (String × String)} {k : String}
    (k1 v1 : String) (h : has_key d k = true) :
    has_key (setdefault d k1 v1) k = true := by
  unfold setdefault
  split
  · exact h
  · unfold has_key at h ⊢
    simp [List.any_append, h]

lemma lookup_hdr_setdefault_present {d : List (String × String)} {k : String}
    (k1 v1 : String) (h : has_key d k = true) :
    lookup_hdr (setdefault d k1 v1) k = lookup_hdr d k := by
  unfold setdefault
  split
  · rfl
  · rw [lookup_hdr_append]
    simp [h]

lemma lookup_fold_present :
    ∀ (ds d : List (String × String)) (k : String), has_key d k = true →
      lookup_hdr (fold_setdefault ds d) k = lookup_hdr d k
  | [], d, k, h => rfl
  | kv :: rest, d, k, h => by
    have step : fold_setdefault (kv :: rest) d =
        fold_setdefault rest (setdefault d kv.1 kv.2) := rfl
    rw [step, lookup_fold_present rest _ k (has_key_setdefault_of kv.1 kv.2 h),
      lookup_hdr_setdefault_present kv.1 kv.2 h]

lemma lookup_fold_absent :
    ∀ (ds d : List (String × String)) (k v : String), (k, v) ∈ ds →
      (ds.map Prod.fst).Nodup → has_key d k = false →
      lookup_hdr (fold_setdefault ds d) k = some v
  | [], _, _, _, hmem, _, _ => absurd hmem (List.not_mem_nil _)
  | (k1, v1) :: rest, d, k, v, hmem, hnodup, habs => by
    have hnodup2 : (k1 :: rest.map Prod.fst).Nodup := by
      rw [List.map_cons] at hnodup
      exact hnodup
    have hnd := List.nodup_cons.mp hnodup2
    rcases List.mem_cons.mp hmem with heq | hmem2
    · have hk : k = k1 := congrArg Prod.fst heq
      have hv : v = v1 := congrArg Prod.snd heq
      subst hk
      subst hv
      have hset : setdefault d k v = d ++ [(k, v)] := by
        unfold setdefault
        unfold has_key at habs
        simp [habs]
      have hkey : has_key (d ++ [(k, v)]) k = true := by
        unfold has_key
        simp [List.any_append]
      have hlook : lookup_hdr (d ++ [(k, v)]) k = some v := by
        rw [lookup_hdr_append]
        simp [habs, lookup_hdr]
      have step : fold_setdefault ((k, v) :: rest) d =
          fold_setdefault rest (setdefault d k v) := rfl
      rw [step, hset, lookup_fold_present rest _ k hkey, hlook]
    · have hkne : k1 ≠ k := by
        intro he
        subst he
        exact hnd.1 (List.mem_map.mpr ⟨(k1, v), hmem2, rfl⟩)
      have habs2 : has_key (setdefault d k1 v1) k = false := by
        unfold setdefault
        split
        · exact habs
        · unfold has_key at habs ⊢
          simp [List.any_append, habs, hkne]
      have step : fold_setdefault ((k1, v1) :: rest) d =
          fold_setdefault rest (setdefault d k1 v1) := rfl
      rw [step]
      exact lookup_fold_absent rest _ k v hmem2 hnd.2 habs2

lemma c1_chain :
    Relation.ReflTransGen (Step E_c1) (race_init c1_proxies 1) c1_s4 := by
  have h1 : Step E_c1 (race_init c1_proxies 1) c1_s1 :=
    @Step.dequeue E_c1 (race_init c1_proxies 1) 0 c1_p1 [c1_p2] rfl rfl rfl
  have h2 : Step E_c1 c1_s1 c1_s2 := @Step.complete E_c1 c1_s1 0 c1_p1 rfl
  have h3 : Step E_c1 c1_s2 c1_s3 := @Step.claim E_c1 c1_s2 0 c1_p1 rfl
  have h4 : Step E_c1 c1_s3 c1_s4 :=
    @Step.exitLoop E_c1 c1_s3 0 rfl (Or.inr rfl)
  exact Relation.ReflTransGen.head h1 (Relation.ReflTransGen.head h2
    (Relation.ReflTransGen.head h3 (Relation.ReflTransGen.head h4
      Relation.ReflTransGen.refl)))

lemma c1_final : RaceFinal E_c1 c1_s4 := by
  apply race_no_step_of_stopped
  intro w hw
  have hw2 : w = WPhase.done := by simpa [c1_s4] using hw
  subst hw2
  rfl

lemma c5_chain :
    Relation.ReflTransGen (Step E_c5) (race_init c5_proxies 1) c5_s4 := by
  have h1 : Step E_c5 (race_init c5_proxies 1) c5_s1 :=
    @Step.dequeue E_c5 (race_init c5_proxies 1) 0 c5_g [] rfl rfl rfl
  have h2 : Step E_c5 c5_s1 c5_s2 := @Step.complete E_c5 c5_s1 0 c5_g rfl
  have h3 : Step E_c5 c5_s2 c5_s3 := @Step.claim E_c5 c5_s2 0 c5_g rfl
  have h4 : Step E_c5 c5_s3 c5_s4 :=
    @Step.exitLoop E_c5 c5_s3 0 rfl (Or.inr rfl)
  exact Relation.ReflTransGen.head h1 (Relation.ReflTransGen.head h2
    (Relation.ReflTransGen.head h3 (Relation.ReflTransGen.head h4
      Relation.ReflTransGen.refl)))

lemma c5_chain_tail : Relation.ReflTransGen (Step E_c5) c5_s3 c5_s4 := by
  have h4 : Step E_c5 c5_s3 c5_s4 :=
    @Step.exitLoop E_c5 c5_s3 0 rfl (Or.inr rfl)
  exact Relation.ReflTransGen.head h4 Relation.ReflTransGen.refl

lemma c5_final : RaceFinal E_c5 c5_s4 := by
  apply race_no_step_of_stopped
  intro w hw
  have hw2 : w = WPhase.done := by simpa [c5_s4] using hw
  subst hw2
  rfl

lemma c9_chain :
    Relation.ReflTransGen (Step E_c9) (race_init c9_proxies 2) c9_s5 := by
  have h1 : Step E_c9 (race_init c9_proxies 2) c9_s1 :=
    @Step.dequeue E_c9 (race_init c9_proxies 2) 0 c9_q [] rfl rfl rfl
  have h2 : Step E_c9 c9_s1 c9_s2 :=
    @Step.exitLoop E_c9 c9_s1 1 rfl (Or.inl rfl)
  have h3 : Step E_c9 c9_s2 c9_s3 := @Step.complete E_c9 c9_s2 0 c9_q rfl
  have h4 : Step E_c9 c9_s3 c9_s4 := @Step.claim E_c9 c9_s3 0 c9_q rfl
  have h5 : Step E_c9 c9_s4 c9_s5 :=
    @Step.exitLoop E_c9 c9_s4 0 rfl (Or.inr rfl)
  exact Relation.ReflTransGen.head h1 (Relation.ReflTransGen.head h2
    (Relation.ReflTransGen.head h3 (Relation.ReflTransGen.head h4
      (Relation.ReflTransGen.head h5 Relation.ReflTransGen.refl))))

lemma c9_final : RaceFinal E_c9 c9_s5 := by
  apply race_no_step_of_stopped
  intro w hw
  have hw2 : w = WPhase.done := by
    rcases (by simpa [c9_s5] using hw : w = WPhase.done ∨ w = WPhase.done)
      with h | h <;> exact h
  subst hw2
  rfl

/-- C7: for every proxy address, a scheme of http or https classifies as the
HTTP family, a scheme beginning with socks classifies as the SOCKS family,
and any other scheme fails with an error carrying the offending scheme and
the full address; the classifier is the pure function infer_type. -/
theorem claim7_infer_type_classification (proxy : String) :
    ((lowerStr (urlScheme (pystrip proxy)) = "http" ∨
      lowerStr (urlScheme (pystrip proxy)) = "https") →
      infer_type proxy = Except.ok ProxyType.HTTP) ∧
    (startsWithStr (lowerStr (urlScheme (pystrip proxy))) "socks" = true →
      infer_type proxy = Except.ok ProxyType.SOCKS) ∧
    (¬(lowerStr (urlScheme (pystrip proxy)) = "http" ∨
       lowerStr (urlScheme (pystrip proxy)) = "https") →
      startsWithStr (lowerStr (urlScheme (pystrip proxy))) "socks" = false →
      infer_type proxy = Except.error
        ⟨lowerStr (urlScheme (pystrip proxy)), proxy⟩) := by
  refine ⟨?_, ?_, ?_⟩
  · intro h
    unfold infer_type
    rcases h with h | h <;> simp [h]
  · intro h
    have h1 : ¬(lowerStr (urlScheme (pystrip proxy)) = "http") := by
      intro he
      rw [he] at h
      exact absurd h (by decide)
    have h2 : ¬(lowerStr (urlScheme (pystrip proxy)) = "https") := by
      intro he
      rw [he] at h
      exact absurd h (by decide)
    unfold infer_type
    simp [h1, h2, h]
  · intro h1 h2
    push_neg at h1
    unfold infer_type
    simp [h1.1, h1.2, h2]

/-- C7 witness: the three classifier branches at concrete addresses. -/
theorem claim7_infer_type_classification_witness :
    infer_type "https://h7.example:1" = Except.ok ProxyType.HTTP ∧
    infer_type "socks4://h7.example:1" = Except.ok ProxyType.SOCKS ∧
    infer_type "ftp://h7.example:1" =
      Except.error ⟨"ftp", "ftp://h7.example:1"⟩ :=
  ⟨(claim7_infer_type_classification "https://h7.example:1").1 (Or.inr rfl),
   (claim7_infer_type_classification "socks4://h7.example:1").2.1 rfl,
   (claim7_infer_type_classification "ftp://h7.example:1").2.2 (by decide) rfl⟩

/-- C8: the backoff policy returns min(base * 2^n + jitter, cap) with the
jitter term present exactly when jitter is enabled; with jitter disabled it
is monotone in the attempt index for nonnegative base, and it equals the cap
exactly once base * 2^n reaches the cap (also with nonnegative jitter). -/
theorem claim8_backoff_spec :
    (∀ (n : Nat) (base js cap : ℚ),
       get_exponential_backoff n base true js cap = min (base * 2 ^ n + js) cap ∧
       get_exponential_backoff n base false js cap = min (base * 2 ^ n) cap) ∧
    (∀ (n : Nat) (base js cap : ℚ), 0 ≤ base →
       get_exponential_backoff n base false js cap ≤
         get_exponential_backoff (n + 1) base false js cap) ∧
    (∀ (n : Nat) (base js cap : ℚ), cap ≤ base * 2 ^ n →
       get_exponential_backoff n base false js cap = cap ∧
       (0 ≤ js → get_exponential_backoff n base true js cap = cap)) := by
  refine ⟨fun n base js cap => ⟨rfl, rfl⟩, ?_, ?_⟩
  · intro n base js cap hb
    show min (base * 2 ^ n) cap ≤ min (base * 2 ^ (n + 1)) cap
    refine min_le_min ?_ le_rfl
    refine mul_le_mul_of_nonneg_left ?_ hb
    exact pow_le_pow_right₀ (by norm_num) (Nat.le_succ n)
  · intro n base js cap hcap
    constructor
    · show min (base * 2 ^ n) cap = cap
      exact min_eq_right hcap
    · intro hjs
      show min (base * 2 ^ n + js) cap = cap
      exact min_eq_right (hcap.trans (le_add_of_nonneg_right hjs))

/-- C8 witness: the backoff contract at concrete inputs (base 1, cap 60,
jitter sample 1/4). -/
theorem claim8_backoff_spec_witness :
    get_exponential_backoff 2 1 true (1 / 4) 60 = min (1 * 2 ^ 2 + 1 / 4) 60 ∧
    get_exponential_backoff 2 1 false (1 / 4) 60 ≤
      get_exponential_backoff 3 1 false (1 / 4) 60 ∧
    get_exponential_backoff 6 1 false (1 / 4) 60 = 60 ∧
    get_exponential_backoff 6 1 true (1 / 4) 60 = 60 :=
  ⟨(claim8_backoff_spec.1 2 1 (1 / 4) 60).1,
   claim8_backoff_spec.2.1 2 1 (1 / 4) 60 (by norm_num),
   (claim8_backoff_spec.2.2 6 1 (1 / 4) 60 (by norm_num)).1,
   (claim8_backoff_spec.2.2 6 1 (1 / 4) 60 (by norm_num)).2 (by norm_num)⟩

/-- C2 counterexample: a TLS certificate failure makes submit return None
(the logged except branch falls off the end of the function), so the
outcome of that attempt is absent rather than a Failure record. -/
theorem claim2_tls_cert_failure_absent :
    ProxyRequest.submit {} HTTPMethod.GET "https://target2.example/"
      "http://cproxy.example:3128" (.certError "certificate verify failed")
      = Except.ok none ∧
    (∀ d : PyVal, ProxyRequest.submit {} HTTPMethod.GET "https://target2.example/"
      "http://cproxy.example:3128" (.certError "certificate verify failed")
      ≠ Except.ok (some d)) := by
  refine ⟨rfl, ?_⟩
  intro d h
  rw [show ProxyRequest.submit {} HTTPMethod.GET "https://target2.example/"
      "http://cproxy.example:3128"
      (NetResponse.certError "certificate verify failed")
      = Except.ok (none : Option PyVal) from rfl] at h
  simp at h

/-- C2 (amended): every caught transport failure other than a TLS
certificate failure yields the Failure record carrying the raw target URL,
the proxy address and a null status (with the error message under the error
key, distinguishing it from a Success); a TLS certificate failure is logged
and yields an absent (None) outcome. -/
theorem claim2_transport_failure_record (cfg : ProxyRequestCfg)
    (method : HTTPMethod) (url proxy : String) (resp : NetResponse)
    (pt : ProxyType) (hpt : infer_type proxy = Except.ok pt) :
    (isTransportError resp = true →
      ProxyRequest.submit cfg method url proxy resp
        = Except.ok (some (failure_record (netErrMsg resp) url proxy)) ∧
      pyLookup (failure_record (netErrMsg resp) url proxy) "url"
        = some (.str url) ∧
      pyLookup (failure_record (netErrMsg resp) url proxy) "proxy"
        = some (.str proxy) ∧
      pyLookup (failure_record (netErrMsg resp) url proxy) "status"
        = some .pynone ∧
      pyLookup (failure_record (netErrMsg resp) url proxy) "error"
        = some (.str (netErrMsg resp))) ∧
    (∀ m, resp = NetResponse.certError m →
      ProxyRequest.submit cfg method url proxy resp = Except.ok none) := by
  constructor
  · intro ht
    cases resp with
    | ok finalUrl status ct tOk text raw hs => simp [isTransportError] at ht
    | certError m => simp [isTransportError] at ht
    | timeoutError m =>
      refine ⟨?_, rfl, rfl, rfl, rfl⟩
      unfold ProxyRequest.submit
      rw [hpt]
      rfl
    | connError m =>
      refine ⟨?_, rfl, rfl, rfl, rfl⟩
      unfold ProxyRequest.submit
      rw [hpt]
      rfl
    | respError m =>
      refine ⟨?_, rfl, rfl, rfl, rfl⟩
      unfold ProxyRequest.submit
      rw [hpt]
      rfl
    | payloadError m =>
      refine ⟨?_, rfl, rfl, rfl, rfl⟩
      unfold ProxyRequest.submit
      rw [hpt]
      rfl
    | clientError m =>
      refine ⟨?_, rfl, rfl, rfl, rfl⟩
      unfold ProxyRequest.submit
      rw [hpt]
      rfl
  · intro m hm
    subst hm
    unfold ProxyRequest.submit
    rw [hpt]

/-- C2 witness: the amended contract at a concrete connection failure and a
concrete certificate failure. -/
theorem claim2_transport_failure_record_witness :
    ProxyRequest.submit {} HTTPMethod.GET "http://t2.example/"
      "http://p2.example:1" (.connError "reset")
      = Except.ok (some (failure_record "reset" "http://t2.example/"
        "http://p2.example:1")) ∧
    ProxyRequest.submit {} HTTPMethod.GET "http://t2.example/"
      "http://p2.example:1" (.certError "bad") = Except.ok none :=
  ⟨((claim2_transport_failure_record {} HTTPMethod.GET "http://t2.example/"
      "http://p2.example:1" (.connError "reset") .HTTP rfl).1 rfl).1,
   (claim2_transport_failure_record {} HTTPMethod.GET "http://t2.example/"
      "http://p2.example:1" (.certError "bad") .HTTP rfl).2 "bad" rfl⟩

/-- C3 (code bug): SmartFetch._format tuple-unpacks the executor's result
dict, so it binds the dict's KEY strings, not its values: a successful
attempt produces a FetchResult whose body/url/status/headers fields are the
literal strings body, url, status, headers instead of the Success record's
fields, and the six-key failure dict makes the unpack raise ValueError;
end to end, a successful SmartFetch.fetch returns that garbage record. -/
theorem claim3_smart_format_destructures_keys :
    smart_format (success_record "http://t3.example/x" 200 "text/html" true
      "hello" [] [("Content-Type", "text/html")]) "http://hp3.example:8080" 0
      .HEAD .HEAD
      = Except.ok (.dict [("body", .str "body"), ("url", .str "url"),
        ("status", .str "status"), ("headers", .str "headers"),
        ("used_proxy", .str "http://hp3.example:8080"), ("retries", .int 0),
        ("initial_method", .str "HEAD"), ("final_method", .str "HEAD")]) ∧
    pyLookup (success_record "http://t3.example/x" 200 "text/html" true
      "hello" [] [("Content-Type", "text/html")]) "body" = some (.str "hello") ∧
    smart_format (failure_record "timeout" "http://t3.example/x"
      "http://hp3.example:8080") "http://hp3.example:8080" 0 .HEAD .HEAD
      = Except.error "unpack arity mismatch" ∧
    smart_fetch true ⟨true, fun _ => .ok "http://t.example/x" 200 "text/html"
      true "B" [] []⟩ "http://t.example/" .HEAD (some "http://hp.example:1")
      none 1 0
      = Except.ok (some (.dict [("body", .str "body"), ("url", .str "url"),
        ("status", .str "status"), ("headers", .str "headers"),
        ("used_proxy", .str "http://hp.example:1"), ("retries", .int 0),
        ("initial_method", .str "HEAD"), ("final_method", .str "HEAD")])) :=
  ⟨rfl, rfl, rfl, rfl⟩

/-- C4: with origin verification enabled, a response whose final URL
hostname differs from the request URL hostname makes the attempt raise
ProxyOriginMismatchError carrying the expected host, the actual host and
the final URL, regardless of status; the race winner is always the record
of a truthy submit dict of some proxy, so a proxy whose attempt raised is
never the recorded used_proxy; and the staged fetcher surfaces nothing
from an attempt that raised. -/
theorem claim4_origin_mismatch_never_success :
    (∀ (cfg : ProxyRequestCfg) (method : HTTPMethod)
       (url proxy finalUrl : String) (status : Nat) (ct : String) (tOk : Bool)
       (text : String) (raw : List Nat) (hs : List (String × String))
       (pt : ProxyType),
       infer_type proxy = Except.ok pt → cfg.verify_origin = true →
       ¬(hostname url = hostname finalUrl) →
       ProxyRequest.submit cfg method url proxy
         (.ok finalUrl status ct tOk text raw hs)
         = Except.error
           (.originMismatch (hostname url) (hostname finalUrl) finalUrl)) ∧
    (∀ (E : RaceEnv) (proxies : List String) (m : Nat) (s : RaceState)
       (r : PyVal),
       Relation.ReflTransGen (Step E) (race_init proxies m) s →
       s.winner = some r →
       ∃ p d, submitOf E p = Except.ok (some d) ∧ pyTruthy d = true ∧
         r = race_record E d p ∧ pyLookup r "used_proxy" = some (.str p)) ∧
    (∀ (E : RaceEnv) (proxies : List String) (m : Nat) (s : RaceState)
       (r : PyVal) (q : String) (e : SubmitError),
       Relation.ReflTransGen (Step E) (race_init proxies m) s →
       s.winner = some r → submitOf E q = Except.error e →
       ¬ pyLookup r "used_proxy" = some (.str q)) ∧
    (∀ (e : SubmitError) (proxy : String) (retries : Nat)
       (im sm : HTTPMethod),
       attempt_result (Except.error e) proxy retries im sm = none) := by
  refine ⟨?_, ?_, ?_, ?_⟩
  · intro cfg method url proxy finalUrl status ct tOk text raw hs pt hpt hvo hne
    unfold ProxyRequest.submit
    rw [hpt]
    simp [hvo, hne]
  · intro E proxies m s r hre hw
    obtain ⟨p, d, h1, h2, h3⟩ := (race_inv_reachable hre).winnerShape r hw
    refine ⟨p, d, h1, h2, h3, ?_⟩
    subst h3
    rfl
  · intro E proxies m s r q e hre hw herr hlook
    obtain ⟨p, d, h1, h2, h3⟩ := (race_inv_reachable hre).winnerShape r hw
    subst h3
    have hpq : p = q := by
      have : some (PyVal.str p) = some (PyVal.str q) := by
        rw [← hlook]
        rfl
      injection this with h4
      injection h4
    subst hpq
    rw [h1] at herr
    exact absurd herr (by simp)
  · intro e proxy retries im sm
    rfl

/-- C4 witness: a concrete cross-origin response raises the mismatch error;
the concrete all-success race's winner satisfies the winner shape; a proxy
with an unsupported scheme (whose submit raises) is not the used_proxy; an
attempt that raised contributes nothing to the staged fetcher. -/
theorem claim4_origin_mismatch_never_success_witness :
    ProxyRequest.submit {} HTTPMethod.GET "http://orig4.example/"
      "http://p4.example:1" (.ok "http://evil4.example/" 200 "text/html" true
        "x" [] [])
      = Except.error (.originMismatch "orig4.example" "evil4.example"
        "http://evil4.example/") ∧
    (∃ p d, submitOf E_c5 p = Except.ok (some d) ∧ pyTruthy d = true ∧
      c5_winner = race_record E_c5 d p ∧
      pyLookup c5_winner "used_proxy" = some (.str p)) ∧
    ¬ pyLookup c5_winner "used_proxy" = some (.str "ftp://bad4.example") ∧
    attempt_result (Except.error (.originMismatch "a" "b" "u"))
      "http://p4.example:1" 0 .GET .GET = none :=
  ⟨claim4_origin_mismatch_never_success.1 {} HTTPMethod.GET
      "http://orig4.example/" "http://p4.example:1" "http://evil4.example/"
      200 "text/html" true "x" [] [] .HTTP rfl rfl (by decide),
   claim4_origin_mismatch_never_success.2.1 E_c5 c5_proxies 1 c5_s4 c5_winner
      c5_chain rfl,
   claim4_origin_mismatch_never_success.2.2.1 E_c5 c5_proxies 1 c5_s4
      c5_winner "ftp://bad4.example"
      (.unsupportedScheme "ftp" "ftp://bad4.example") c5_chain rfl rfl,
   claim4_origin_mismatch_never_success.2.2.2
      (.originMismatch "a" "b" "u") "http://p4.example:1" 0 .GET .GET⟩

/-- C5: the winner slot is written at most once in any execution (once set
it never changes), and a race over a nonempty proxy list in which every
attempt succeeds with a truthy dict ends, in every final state, with
exactly one recorded winner, never zero. -/
theorem claim5_single_winner :
    (∀ (E : RaceEnv) (s t : RaceState) (r : PyVal),
       Relation.ReflTransGen (Step E) s t → s.winner = some r →
       t.winner = some r) ∧
    (∀ (E : RaceEnv) (proxies : List String) (m : Nat) (s : RaceState),
       0 < m → proxies ≠ [] →
       (∀ p ∈ proxies, ∃ d, submitOf E p = Except.ok (some d) ∧
         pyTruthy d = true) →
       Relation.ReflTransGen (Step E) (race_init proxies m) s →
       RaceFinal E s → ∃ r, s.winner = some r) :=
  ⟨fun E s t r h hw => steps_winner_mono h hw,
   fun E proxies m s hm hp H hre hf =>
     race_winner_of_all_success hm hp H hre hf⟩

/-- C5 witness: in the concrete all-success race the set winner persists to
the final state, and the final state has exactly one recorded winner. -/
theorem claim5_single_winner_witness :
    c5_s4.winner = some c5_winner ∧ (∃ r, c5_s4.winner = some r) :=
  ⟨claim5_single_winner.1 E_c5 c5_s3 c5_s4 c5_winner c5_chain_tail rfl,
   claim5_single_winner.2 E_c5 c5_proxies 1 c5_s4 (by norm_num)
     (List.cons_ne_nil _ _)
     (by
       intro p hp
       have hpg : p = c5_g := by simpa [c5_proxies] using hp
       subst hpg
       exact ⟨c5_d, rfl, rfl⟩)
     c5_chain c5_final⟩

/-- C6: every race step strictly decreases a natural measure, so every
execution over a finite proxy list terminates; a state admits no further
step exactly when every worker has observably stopped (completed or
cancelled), so the call returns only with no live worker; and every final
state of a race reached from the initial state has either a set winner or a
drained queue. -/
theorem claim6_race_termination :
    (∀ (E : RaceEnv) (s t : RaceState), Step E s t →
       raceMeasure t < raceMeasure s) ∧
    (∀ (E : RaceEnv) (s : RaceState),
       RaceFinal E s ↔ ∀ w ∈ s.workers, isStopped w = true) ∧
    (∀ (E : RaceEnv) (proxies : List String) (m : Nat) (s : RaceState),
       0 < m → Relation.ReflTransGen (Step E) (race_init proxies m) s →
       RaceFinal E s → s.winner.isSome = true ∨ s.queue = []) :=
  ⟨fun E s t h => step_measure h,
   fun E s => race_final_iff,
   fun E proxies m s hm hre hf => race_final_characterization hm hre hf⟩

/-- C6 witness: a concrete step decreases the measure; the concrete final
states have only stopped workers and a set winner. -/
theorem claim6_race_termination_witness :
    raceMeasure c5_s4 < raceMeasure c5_s3 ∧
    RaceFinal E_c1 c1_s4 ∧
    (c9_s5.winner.isSome = true ∨ c9_s5.queue = []) :=
  ⟨claim6_race_termination.1 E_c5 c5_s3 c5_s4
      (@Step.exitLoop E_c5 c5_s3 0 rfl (Or.inr rfl)),
   (claim6_race_termination.2.1 E_c1 c1_s4).mpr (by
      intro w hw
      have hw2 : w = WPhase.done := by simpa [c1_s4] using hw
      subst hw2
      rfl),
   claim6_race_termination.2.2 E_c9 c9_proxies 2 c9_s5 (by norm_num)
     c9_chain c9_final⟩

/-- C1 (code bug): in a race over two proxies where every attempt fails
with a transport error (zero proxies succeed), the worker claims the truthy
failure dict as the winner: the race returns a non-null record with null
status and body, and the second proxy is never attempted — contradicting
both the null return and the attempted-exactly-once parts of the claim,
while the stored record does carry used_proxy and the identical methods. -/
theorem claim1_race_claims_transport_failure :
    isTransportError (E_c1.net c1_p1) = true ∧
    isTransportError (E_c1.net c1_p2) = true ∧
    submitOf E_c1 c1_p1
      = Except.ok (some (failure_record "Connection refused" c1_url c1_p1)) ∧
    Relation.ReflTransGen (Step E_c1) (race_init c1_proxies 1) c1_s4 ∧
    RaceFinal E_c1 c1_s4 ∧
    c1_s4.winner = some c1_winner ∧
    pyLookup c1_winner "status" = some PyVal.pynone ∧
    pyLookup c1_winner "body" = some PyVal.pynone ∧
    pyLookup c1_winner "used_proxy" = some (PyVal.str c1_p1) ∧
    pyLookup c1_winner "initial_method" = some (PyVal.str "GET") ∧
    pyLookup c1_winner "final_method" = some (PyVal.str "GET") ∧
    c1_s4.attempted = [c1_p1] ∧
    brute_fetch_returns E_c1 c1_proxies 1 (some c1_winner) :=
  ⟨rfl, rfl, rfl, c1_chain, c1_final, rfl, rfl, rfl, rfl, rfl, rfl, rfl, by
    unfold brute_fetch_returns
    rw [if_neg (by simp [c1_proxies] : ¬(c1_proxies = []))]
    exact ⟨c1_s4, c1_chain, c1_final, rfl⟩⟩

/-- C9 (code bug): the race over an empty proxy list returns None before
creating any worker, and SmartFetch raises only the no-proxy ValueError,
returning None on exhaustion; but a race whose only proxy fails with a
timeout (zero successes) returns a non-null failure record rather than
null, because the worker claims the truthy failure dict. -/
theorem claim9_exhaustion_returns_failure_record :
    brute_fetch_returns E_c9 [] 15 none ∧
    isTransportError (E_c9.net c9_q) = true ∧
    submitOf E_c9 c9_q = Except.ok (some (failure_record "" c9_url c9_q)) ∧
    brute_fetch_returns E_c9 c9_proxies 2 (some c9_winner) ∧
    pyLookup c9_winner "status" = some PyVal.pynone ∧
    some c9_winner ≠ none ∧
    (∀ (v : Bool) (env : SmartEnv) (u : String) (m : HTTPMethod) (a b : Nat),
      smart_fetch v env u m none none a b
        = Except.error
          "At least one of http_proxy or socks_proxy must be provided.") ∧
    smart_fetch true ⟨true, fun _ => .timeoutError "t"⟩ "http://t.example/"
      .HEAD (some "http://hp.example:1") (some "socks5://sp.example:1") 2 2
      = Except.ok none :=
  ⟨by simp [brute_fetch_returns],
   rfl, rfl,
   by
    unfold brute_fetch_returns
    rw [if_neg (by simp [c9_proxies] : ¬(c9_proxies = []))]
    exact ⟨c9_s5, c9_chain, c9_final, rfl⟩,
   rfl,
   by simp,
   fun v env u m a b => rfl,
   rfl⟩

/-- C10: when the caller passes a nonempty headers dict, BruteFetch.fetch
keeps working on that very object (headers or the empty dict yields the
caller's dict exactly when it is truthy) and inserts each missing default
key with setdefault, so after the merge caller-supplied keys still map to
the caller's values and absent default keys map to the default values. -/
theorem claim10_headers_mutated_in_place
    (caller defaults : List (String × String)) (hne : caller ≠ [])
    (hnodup : (defaults.map Prod.fst).Nodup) :
    brute_headers_aliased caller = true ∧
    (∀ k, has_key caller k = true →
      lookup_hdr (brute_merge_headers caller defaults) k
        = lookup_hdr caller k) ∧
    (∀ k v, (k, v) ∈ defaults → has_key caller k = false →
      lookup_hdr (brute_merge_headers caller defaults) k = some v) := by
  have hinit : (if caller.isEmpty then ([] : List (String × String))
      else caller) = caller := by
    cases caller with
    | nil => exact absurd rfl hne
    | cons a l => rfl
  have hbm : brute_merge_headers caller defaults
      = fold_setdefault defaults caller := by
    unfold brute_merge_headers fold_setdefault
    rw [hinit]
  refine ⟨?_, ?_, ?_⟩
  · unfold brute_headers_aliased
    cases caller with
    | nil => exact absurd rfl hne
    | cons a l => rfl
  · intro k hk
    rw [hbm]
    exact lookup_fold_present defaults caller k hk
  · intro k v hmem hnk
    rw [hbm]
    exact lookup_fold_absent defaults caller k v hmem hnodup hnk

/-- C10 witness: a concrete nonempty caller dict is the mutated object, its
own User-Agent survives the merge, and the missing Accept default is
inserted. -/
theorem claim10_headers_mutated_in_place_witness :
    brute_headers_aliased [("User-Agent", "custom")] = true ∧
    lookup_hdr (brute_merge_headers [("User-Agent", "custom")]
      [("User-Agent", "x"), ("Accept", "y")]) "User-Agent"
      = lookup_hdr [("User-Agent", "custom")] "User-Agent" ∧
    lookup_hdr (brute_merge_headers [("User-Agent", "custom")]
      [("User-Agent", "x"), ("Accept", "y")]) "Accept" = some "y" := by
  have h := claim10_headers_mutated_in_place [("User-Agent", "custom")]
    [("User-Agent", "x"), ("Accept", "y")] (by simp) (by decide)
  exact ⟨h.1, h.2.1 "User-Agent" rfl, h.2.2 "Accept" "y" (by simp) rfl⟩
